import Mathlib

/-!
Verification of the UPD7759 encoder core (src/encode.c).

A shallow embedding of the encoder core of src/encode.c: the per-sample
predictive state machine (`output_upd_file`, lines 196-214), the nibble
packing and frequency-marker framing (lines 215-231), the sample-rate to
marker resolution (`get_frequency`, lines 176-184), and the sample-rate
validation of `read_pcm_file` (lines 135-142).

Machine integers are modelled as `Int`/`Nat` with explicit reductions:
the C `uint16_t` conversion is `% 65536`, the narrowing of an `int` value
to a signed `char` is `int8ofInt`, the `uint8_t` assignments are `% 256`,
and `sample & 0x0f` on a (possibly negative) promoted `char` is the
non-negative residue `% 16`.

Modelled from the spec: the lookup tables `upd7759_step` (16 x 16) and
`upd7759_state_table` (16 entries) are declared `extern` in src/encode.c
and their defining translation unit is not part of src/.  The spec (section 3)
describes them only as fixed immutable integer tables without listing any
values, so the whole development is parametric in two arbitrary total
lookup functions: `stT` (the state transition table, applied to the column
index) and `step` (the step table, first argument the row/state index,
second the column/sample index).
-/

namespace Upd7759

/-- Narrowing of a C `int` value to a signed 8-bit `char` (two's complement),
as performed by the assignments to the `char sample` variable in
`output_upd_file` (src/encode.c lines 198 and 211). -/
def int8ofInt (z : Int) : Int :=
  if z % 256 < 128 then z % 256 else z % 256 - 256

/-- The clip used on both `state` and `sample` in src/encode.c lines 199-202:
`if (x < 0) x = 0; else if (x > 15) x = 15;`. -/
def clamp16 (z : Int) : Int :=
  if z < 0 then 0 else if z > 15 then 15 else z

/-- Lines 197-198 of src/encode.c:
`uint16_t sample2 = input_file->data[i]; sample = (sample2 >> 7);` --
the signed 16-bit sample is reinterpreted as an unsigned 16-bit value
(`% 65536`), logically shifted right by 7 (division by 128 of a
non-negative value), and the result narrowed to a signed `char`. -/
def shiftSample (x : Int) : Int :=
  int8ofInt ((x % 65536) / 128)

/-- The per-sample encoder (src/encode.c lines 197-214): from the current
`state` and the raw 16-bit sample `x`, returns the new `state` and the
output nibble `sample & 0x0f`.  `stT` and `step` are the two extern lookup
tables (see the file docstring). -/
def encode_sample (stT : Int → Int) (step : Int → Int → Int)
    (state : Int) (x : Int) : Int × Nat :=
  let sample := shiftSample x
  let state1 := clamp16 state
  let sample1 := clamp16 sample
  let state2 := stT sample1 - state1
  let sample2 := int8ofInt (step state2 sample1 - sample1)
  (state2, (sample2 % 16).toNat)

/-- The mutable locals of `output_upd_file` together with the bytes written
so far: `state`, the loop counter `onesixty`, the packing register
`output_sample` (a `uint8_t`), and the output stream `out`. -/
structure PackState where
  state : Int
  onesixty : Nat
  output_sample : Nat
  out : List Nat

/-- One iteration of the `for` loop of `output_upd_file`
(src/encode.c lines 196-226): encode the sample, pack the nibble
(`onesixty & 1` decides whether this is the second nibble of a pair, in
which case `(output_sample << 4) | (sample & 0x0f)` is written), then
`if (++onesixty == 256)` reset the counter and write the marker byte. -/
def encode_step (stT : Int → Int) (step : Int → Int → Int) (freq : Nat)
    (ps : PackState) (x : Int) : PackState :=
  let r := encode_sample stT step ps.state x
  let os := if ps.onesixty % 2 = 1
    then (ps.output_sample <<< 4 ||| r.2) % 256 else r.2
  let out := if ps.onesixty % 2 = 1
    then ps.out ++ [(ps.output_sample <<< 4 ||| r.2) % 256] else ps.out
  if ps.onesixty + 1 = 256 then ⟨r.1, 0, os, out ++ [freq]⟩
  else ⟨r.1, ps.onesixty + 1, os, out⟩

/-- Resolution of the sample rate to the marker byte, `get_frequency`
(src/encode.c lines 176-184); `0` (the `NONE` enumerator) is returned
when the rate is unsupported. -/
def get_frequency (samplerate : Int) : Nat :=
  if samplerate = 5000 then 0x5f
  else if samplerate = 6000 then 0x59
  else if samplerate = 8000 then 0x53
  else 0

/-- The state of `output_upd_file` just after the initial
`fwrite(&freq, sizeof(freq), 1, o)` (src/encode.c lines 189-194):
`state = 0`, `onesixty = 0`, packing register cleared, and the marker
already written as the first output byte. -/
def upd_init (freq : Nat) : PackState :=
  ⟨0, 0, 0, [freq]⟩

/-- The whole of `output_upd_file` (src/encode.c lines 186-234) as a
function from the marker byte and the sample sequence to the written byte
stream: the initial marker, the packing loop, and the final purge of a
pending unpaired nibble (`output_sample <<= 4` then write, lines 228-231). -/
def output_upd_file (stT : Int → Int) (step : Int → Int → Int)
    (freq : Nat) (samples : List Int) : List Nat :=
  let fin := samples.foldl (encode_step stT step freq) (upd_init freq)
  if fin.onesixty % 2 = 1 then fin.out ++ [(fin.output_sample <<< 4) % 256]
  else fin.out

/-- The run of `main` as far as the claims reach: `read_pcm_file` rejects
any sample rate other than 5000, 6000 or 8000 (src/encode.c lines 135-142;
`kill_str` exits before any output byte is produced), otherwise
`output_upd_file` writes the stream using the marker resolved by
`get_frequency`.  The channel-count and bit-depth checks of
`read_pcm_file` are outside the scope of the claims and are omitted. -/
def encode_run (stT : Int → Int) (step : Int → Int → Int)
    (samplerate : Int) (samples : List Int) : Except String (List Nat) :=
  if samplerate ≠ 5000 ∧ samplerate ≠ 6000 ∧ samplerate ≠ 8000 then
    Except.error "Only sample rates of 5khz, 6khz, or 8kz are supported."
  else
    Except.ok (output_upd_file stT step (get_frequency samplerate) samples)

/-- A concrete instantiation of the state transition table, used only to
evaluate the framing layer (which is independent of the table values) on
concrete inputs. -/
def zeroTable : Int → Int := fun _ => 0

/-- A concrete instantiation of the step table, used only to evaluate the
framing layer on concrete inputs. -/
def zeroStep : Int → Int → Int := fun _ _ => 0

/-- The per-sample working value as the spec (section 4.1, steps 1 and 3)
words it: arithmetic shift right by 7 (floor division by 128, which `Int`
division by a positive constant is), narrowing to a signed 8-bit quantity,
then clipping into `[0, 15]`. -/
def specWorkingValue (x : Int) : Int :=
  let a := x / 128
  let b := int8ofInt a
  if b < 0 then 0 else if b > 15 then 15 else b

/-- The loop invariant of `output_upd_file` after `m` samples: the counter
equals `m % 256`; the bytes written so far are the initial marker, one
packed byte per two samples, and one marker per 256 samples; when `m` is
odd the packing register holds a nibble; the stream starts with the marker
and repeats it at byte index `129 * k` after each block of 256 samples
(128 packed bytes followed by the marker). -/
def Inv (freq : Nat) (m : Nat) (ps : PackState) : Prop :=
  ps.onesixty = m % 256 ∧
  ps.out.length = 1 + m / 2 + m / 256 ∧
  (m % 2 = 1 → ps.output_sample < 16) ∧
  ps.out[0]? = some freq ∧
  (∀ k, 1 ≤ k → k ≤ m / 256 → ps.out[129 * k]? = some freq)

/-- The nibble produced for a sample is always a 4-bit value. -/
theorem nib_lt (stT : Int → Int) (step : Int → Int → Int) (s x : Int) :
    (encode_sample stT step s x).2 < 16 := by
  simp only [encode_sample]
  omega

/-- Narrowing to a signed `char` does not change the value modulo 16. -/
theorem int8ofInt_emod16 (z : Int) : int8ofInt z % 16 = z % 16 := by
  unfold int8ofInt
  split <;> omega

/-- For two 4-bit values, `(p << 4) | n` is `16 * p + n`. -/
theorem lor4_eq (p n : Nat) (hp : p < 16) (hn : n < 16) :
    p <<< 4 ||| n = 16 * p + n := by
  interval_cases p <;> interval_cases n <;> rfl

/-- For a 4-bit value, the `uint8_t` assignment of `p << 4` is `16 * p`. -/
theorem shiftLeft4_mod (p : Nat) (hp : p < 16) : (p <<< 4) % 256 = 16 * p := by
  interval_cases p <;> rfl

/-- One loop iteration preserves the invariant `Inv`. -/
theorem step_inv (stT : Int → Int) (step : Int → Int → Int) (freq : Nat)
    (ps : PackState) (x : Int) (m : Nat) (h : Inv freq m ps) :
    Inv freq (m + 1) (encode_step stT step freq ps x) := by
  obtain ⟨st, cnt, os, out⟩ := ps
  obtain ⟨ih1, ih2, ih3, ih4, ih5⟩ := h
  simp only at ih1 ih2 ih3 ih4 ih5
  subst ih1
  have hnib := nib_lt stT step st x
  unfold Inv
  simp only [encode_step]
  by_cases hodd : m % 256 % 2 = 1
  · by_cases h256 : m % 256 + 1 = 256
    · simp only [if_pos hodd, if_pos h256]
      refine ⟨by omega, ?_, by omega, ?_, ?_⟩
      · simp only [List.length_append, List.length_cons, List.length_nil]
        omega
      · have e1 : ((out ++ [(os <<< 4 ||| (encode_sample stT step st x).2) % 256])
              ++ [freq])[0]?
            = (out ++ [(os <<< 4 ||| (encode_sample stT step st x).2) % 256])[0]? :=
          List.getElem?_append_left
            (by simp only [List.length_append, List.length_cons, List.length_nil]; omega)
        have e2 : (out ++ [(os <<< 4 ||| (encode_sample stT step st x).2) % 256])[0]?
            = out[0]? :=
          List.getElem?_append_left (by omega)
        rw [e1, e2]
        exact ih4
      · intro k hk1 hk2
        rcases Nat.lt_or_ge k (m / 256 + 1) with hlt | hge
        · have e1 : ((out ++ [(os <<< 4 ||| (encode_sample stT step st x).2) % 256])
                ++ [freq])[129 * k]?
              = (out ++ [(os <<< 4 ||| (encode_sample stT step st x).2) % 256])[129 * k]? :=
            List.getElem?_append_left
              (by simp only [List.length_append, List.length_cons, List.length_nil]; omega)
          have e2 : (out ++ [(os <<< 4 ||| (encode_sample stT step st x).2) % 256])[129 * k]?
              = out[129 * k]? :=
            List.getElem?_append_left (by omega)
          rw [e1, e2]
          exact ih5 k hk1 (by omega)
        · have hk : k = m / 256 + 1 := by omega
          subst hk
          have hidx : 129 * (m / 256 + 1)
              = (out ++ [(os <<< 4 ||| (encode_sample stT step st x).2) % 256]).length := by
            simp only [List.length_append, List.length_cons, List.length_nil]
            omega
          rw [hidx, List.getElem?_concat_length]
    · simp only [if_pos hodd, if_neg h256]
      refine ⟨by omega, ?_, by omega, ?_, ?_⟩
      · simp only [List.length_append, List.length_cons, List.length_nil]
        omega
      · rw [List.getElem?_append_left (by omega)]
        exact ih4
      · intro k hk1 hk2
        rw [List.getElem?_append_left (by omega)]
        exact ih5 k hk1 (by omega)
  · by_cases h256 : m % 256 + 1 = 256
    · omega
    · simp only [if_neg hodd, if_neg h256]
      exact ⟨by omega, by omega, fun _ => hnib, ih4, fun k hk1 hk2 => ih5 k hk1 (by omega)⟩

/-- The invariant holds after the whole loop of `output_upd_file`. -/
theorem upd_loop_inv (stT : Int → Int) (step : Int → Int → Int)
    (freq : Nat) (xs : List Int) :
    Inv freq xs.length (xs.foldl (encode_step stT step freq) (upd_init freq)) := by
  induction xs using List.reverseRecOn with
  | nil =>
    refine ⟨rfl, rfl, by simp, rfl, ?_⟩
    intro k hk1 hk2
    simp only [List.length_nil, Nat.zero_div] at hk2
    omega
  | append_singleton l x ih =>
    rw [List.foldl_append, List.foldl_cons, List.foldl_nil, List.length_append,
      List.length_cons, List.length_nil]
    exact step_inv stT step freq _ x l.length ih

/-- Length of the stream written by `output_upd_file` for `n` samples:
`ceil(n / 2)` packed bytes plus `1 + floor(n / 256)` marker bytes. -/
theorem output_upd_length (stT : Int → Int) (step : Int → Int → Int)
    (freq : Nat) (xs : List Int) :
    (output_upd_file stT step freq xs).length
      = (xs.length + 1) / 2 + 1 + xs.length / 256 := by
  obtain ⟨i1, i2, i3, i4, i5⟩ := upd_loop_inv stT step freq xs
  simp only [output_upd_file]
  split
  · simp only [List.length_append, List.length_cons, List.length_nil]
    omega
  · next hc =>
    rw [i1] at hc
    omega

/-- The first byte of the stream is always the marker. -/
theorem output_upd_head (stT : Int → Int) (step : Int → Int → Int)
    (freq : Nat) (xs : List Int) :
    (output_upd_file stT step freq xs)[0]? = some freq := by
  obtain ⟨i1, i2, i3, i4, i5⟩ := upd_loop_inv stT step freq xs
  simp only [output_upd_file]
  split
  · rw [List.getElem?_append_left (by omega)]
    exact i4
  · exact i4

/-- The marker reappears at byte index `129 * k` after each completed block
of 256 input samples (which contributes 128 packed bytes plus the marker). -/
theorem output_upd_marker (stT : Int → Int) (step : Int → Int → Int)
    (freq : Nat) (xs : List Int) (k : Nat) (hk1 : 1 ≤ k)
    (hk2 : k ≤ xs.length / 256) :
    (output_upd_file stT step freq xs)[129 * k]? = some freq := by
  obtain ⟨i1, i2, i3, i4, i5⟩ := upd_loop_inv stT step freq xs
  simp only [output_upd_file]
  split
  · rw [List.getElem?_append_left (by omega)]
    exact i5 k hk1 hk2
  · exact i5 k hk1 hk2

/-- When the sample count is a positive multiple of 256, the stream ends
with the marker written by the wrap of the counter on the last sample. -/
theorem output_upd_last (stT : Int → Int) (step : Int → Int → Int)
    (freq : Nat) (xs : List Int) (h1 : xs.length % 256 = 0)
    (h2 : 0 < xs.length) :
    (output_upd_file stT step freq xs).getLast? = some freq := by
  obtain ⟨i1, i2, i3, i4, i5⟩ := upd_loop_inv stT step freq xs
  simp only [output_upd_file]
  have hc : ¬((xs.foldl (encode_step stT step freq) (upd_init freq)).onesixty % 2 = 1) := by
    omega
  rw [if_neg hc]
  rw [List.getLast?_eq_getElem?, i2]
  have hq : 1 + xs.length / 2 + xs.length / 256 - 1 = 129 * (xs.length / 256) := by
    omega
  rw [hq]
  exact i5 (xs.length / 256) (by omega) (by omega)

/-- Claim C1, counterexample to the claim as stated.  The claim says a
marker recurs only after every 256 bytes of packed nibble data (hence,
for 258 input samples and their 129 packed bytes, the stream would consist
of exactly 1 + 129 = 130 bytes with no recurring marker).  The code counts
input samples, not packed bytes: for 258 samples it emits 131 bytes, with
a recurring marker already at byte index 129, after only 128 packed bytes. -/
theorem C1_counterexample :
    (output_upd_file zeroTable zeroStep 95 (List.replicate 258 0)).length = 131 ∧
    (output_upd_file zeroTable zeroStep 95 (List.replicate 258 0))[129]? = some 95 := by
  constructor
  · simp only [output_upd_length, List.length_replicate]
  · have h := output_upd_marker zeroTable zeroStep 95 (List.replicate 258 0) 1
      (by norm_num) (by simp only [List.length_replicate]; decide)
    simpa only [Nat.mul_one] using h

/-- Claim C1 (amended): for every table pair, marker byte and sample
sequence, the output stream begins with the FrequencyMarker byte, and a
marker with the identical value recurs after every 128 bytes of packed
nibble data -- the counter counts input samples and fires every 256
samples -- so the k-th recurring marker sits at byte index `129 * k`, and
in steady state a marker reappears every 256 input samples. -/
theorem C1_marker_positions (stT : Int → Int) (step : Int → Int → Int)
    (freq : Nat) (xs : List Int) :
    (output_upd_file stT step freq xs)[0]? = some freq ∧
    ∀ k, 1 ≤ k → k ≤ xs.length / 256 →
      (output_upd_file stT step freq xs)[129 * k]? = some freq :=
  ⟨output_upd_head stT step freq xs,
   fun k hk1 hk2 => output_upd_marker stT step freq xs k hk1 hk2⟩

/-- Claim C1, witness: for 512 zero samples the stream starts with the
marker and repeats it at byte indices 129 and 258. -/
theorem C1_marker_positions_witness :
    (output_upd_file zeroTable zeroStep 95 (List.replicate 512 0))[0]? = some 95 ∧
    (output_upd_file zeroTable zeroStep 95 (List.replicate 512 0))[129 * 1]? = some 95 ∧
    (output_upd_file zeroTable zeroStep 95 (List.replicate 512 0))[129 * 2]? = some 95 :=
  ⟨(C1_marker_positions zeroTable zeroStep 95 (List.replicate 512 0)).1,
   (C1_marker_positions zeroTable zeroStep 95 (List.replicate 512 0)).2 1
     (by norm_num) (by simp only [List.length_replicate]; decide),
   (C1_marker_positions zeroTable zeroStep 95 (List.replicate 512 0)).2 2
     (by norm_num) (by simp only [List.length_replicate]; decide)⟩

/-- Claim C3: for a sample processed with clamped state `s` in `[0, 15]`
and clamped 4-bit working value `v = clamp16 (shiftSample x)` in `[0, 15]`,
the new AdaptationState equals `StateTransitionTable[v] - s` (a difference),
the returned nibble equals the low 4 bits of `StepTable[new_state][v] - v`
(again a difference), and the packer threads the new state as the state
for the next sample. -/
theorem C3_difference_formulas (stT : Int → Int) (step : Int → Int → Int)
    (freq : Nat) (ps : PackState) (s x : Int) (h1 : 0 ≤ s) (h2 : s ≤ 15) :
    encode_sample stT step s x
      = (stT (clamp16 (shiftSample x)) - s,
        ((step (stT (clamp16 (shiftSample x)) - s) (clamp16 (shiftSample x))
          - clamp16 (shiftSample x)) % 16).toNat) ∧
    0 ≤ clamp16 (shiftSample x) ∧ clamp16 (shiftSample x) ≤ 15 ∧
    (encode_step stT step freq ps x).state = (encode_sample stT step ps.state x).1 := by
  have hs : clamp16 s = s := by
    unfold clamp16
    split_ifs <;> omega
  refine ⟨?_, ?_, ?_, ?_⟩
  · simp only [encode_sample, hs, Prod.mk.injEq]
    exact ⟨trivial, by rw [int8ofInt_emod16]⟩
  · unfold clamp16
    split_ifs <;> omega
  · unfold clamp16
    split_ifs <;> omega
  · simp only [encode_step]
    split <;> rfl

/-- Claim C3, witness at state 3 and sample 1000. -/
theorem C3_difference_formulas_witness :
    ((0 : Int) ≤ 3 ∧ (3 : Int) ≤ 15) ∧
    (encode_sample zeroTable zeroStep 3 1000
      = (zeroTable (clamp16 (shiftSample 1000)) - 3,
        ((zeroStep (zeroTable (clamp16 (shiftSample 1000)) - 3) (clamp16 (shiftSample 1000))
          - clamp16 (shiftSample 1000)) % 16).toNat) ∧
    0 ≤ clamp16 (shiftSample 1000) ∧ clamp16 (shiftSample 1000) ≤ 15 ∧
    (encode_step zeroTable zeroStep 95 (upd_init 95) 1000).state
      = (encode_sample zeroTable zeroStep (upd_init 95).state 1000).1) :=
  ⟨⟨by norm_num, by norm_num⟩,
   C3_difference_formulas zeroTable zeroStep 95 (upd_init 95) 3 1000
     (by norm_num) (by norm_num)⟩

/-- Claim C4, counterexample to the claim as stated.  For n = 256 samples
the claimed total  `ceil(n/2) + 1 + floor(ceil(n/2)/256)`  is
`128 + 1 + 0 = 129`, but the code writes 130 bytes: the marker counter
fires after 256 samples, i.e. after only 128 packed bytes. -/
theorem C4_counterexample :
    (output_upd_file zeroTable zeroStep 89 (List.replicate 256 0)).length = 130 ∧
    ((256 + 1) / 2 + 1 + ((256 + 1) / 2) / 256 : Nat) = 129 := by
  constructor
  · simp only [output_upd_length, List.length_replicate]
  · norm_num

/-- Claim C4 (amended): for `n` input samples the output byte count equals
`ceil(n/2) + 1 + floor(n/256)` -- `ceil(n/2)` packed bytes, one initial
marker, and one recurring marker per completed block of 256 input samples
(not per 256 packed bytes). -/
theorem C4_output_length_formula (stT : Int → Int) (step : Int → Int → Int)
    (freq : Nat) (xs : List Int) :
    (output_upd_file stT step freq xs).length
      = (xs.length + 1) / 2 + 1 + xs.length / 256 :=
  output_upd_length stT step freq xs

/-- Claim C5: for every 16-bit signed sample, the working value the code
derives (reinterpret as `uint16_t`, logical shift right by 7, narrow to
signed `char`) equals the arithmetic shift right by 7 narrowed to a signed
8-bit quantity, and the subsequent clamp clips (never wraps) the result
into `[0, 15]`: negative narrowed values give 0, values above 15 give 15,
in-range values pass through. -/
theorem C5_working_value (x : Int) (h1 : -32768 ≤ x) (h2 : x < 32768) :
    clamp16 (shiftSample x) = specWorkingValue x ∧
    shiftSample x = int8ofInt (x / 128) ∧
    (int8ofInt (x / 128) < 0 → specWorkingValue x = 0) ∧
    (15 < int8ofInt (x / 128) → specWorkingValue x = 15) ∧
    (0 ≤ int8ofInt (x / 128) → int8ofInt (x / 128) ≤ 15 →
      specWorkingValue x = int8ofInt (x / 128)) := by
  have key : shiftSample x = int8ofInt (x / 128) := by
    unfold shiftSample int8ofInt
    split <;> split <;> omega
  refine ⟨by rw [key]; rfl, key, ?_, ?_, ?_⟩
  · intro hneg
    simp only [specWorkingValue]
    split_ifs <;> omega
  · intro hbig
    simp only [specWorkingValue]
    split_ifs <;> omega
  · intro hlo hhi
    simp only [specWorkingValue]
    split_ifs <;> omega

/-- Claim C5, witness at the adversarial extreme -32768 (whose working
value is 0: the top 9 bits give -256, which narrows to 0). -/
theorem C5_working_value_witness :
    ((-32768 : Int) ≤ -32768 ∧ (-32768 : Int) < 32768) ∧
    clamp16 (shiftSample (-32768)) = specWorkingValue (-32768) ∧
    shiftSample (-32768) = int8ofInt ((-32768) / 128) ∧
    shiftSample (-32768) = 0 :=
  ⟨⟨by norm_num, by norm_num⟩,
   (C5_working_value (-32768) (by norm_num) (by norm_num)).1,
   (C5_working_value (-32768) (by norm_num) (by norm_num)).2.1,
   by decide⟩

/-- Claim C6: for any sample rate outside {5000, 6000, 8000} the run fails
with the fatal sample-rate error before the packer produces anything (no
`Except.ok` output exists), `get_frequency` returns the reserved `NONE`
value 0 only in that rejected situation, and for every valid rate the
marker is non-zero, so `NONE` is never emitted in any output stream. -/
theorem C6_invalid_rate_rejected (stT : Int → Int) (step : Int → Int → Int)
    (r : Int) (samples : List Int)
    (h : r ≠ 5000 ∧ r ≠ 6000 ∧ r ≠ 8000) :
    encode_run stT step r samples
      = Except.error "Only sample rates of 5khz, 6khz, or 8kz are supported." ∧
    (∀ bs : List Nat, encode_run stT step r samples ≠ Except.ok bs) ∧
    get_frequency r = 0 ∧
    ∀ r2 : Int, (r2 = 5000 ∨ r2 = 6000 ∨ r2 = 8000) → get_frequency r2 ≠ 0 := by
  have herr : encode_run stT step r samples
      = Except.error "Only sample rates of 5khz, 6khz, or 8kz are supported." := by
    unfold encode_run
    rw [if_pos h]
  refine ⟨herr, ?_, ?_, ?_⟩
  · intro bs
    rw [herr]
    simp
  · unfold get_frequency
    rw [if_neg h.1, if_neg h.2.1, if_neg h.2.2]
  · rintro r2 (rfl | rfl | rfl) <;> decide

/-- Claim C6, witness at the unsupported rate 11025. -/
theorem C6_invalid_rate_rejected_witness :
    ((11025 : Int) ≠ 5000 ∧ (11025 : Int) ≠ 6000 ∧ (11025 : Int) ≠ 8000) ∧
    encode_run zeroTable zeroStep 11025 [42]
      = Except.error "Only sample rates of 5khz, 6khz, or 8kz are supported." ∧
    get_frequency 11025 = 0 :=
  ⟨⟨by norm_num, by norm_num, by norm_num⟩,
   (C6_invalid_rate_rejected zeroTable zeroStep 11025 [42]
     ⟨by norm_num, by norm_num, by norm_num⟩).1,
   (C6_invalid_rate_rejected zeroTable zeroStep 11025 [42]
     ⟨by norm_num, by norm_num, by norm_num⟩).2.2.1⟩

/-- Claim C7: for every valid sample rate the run succeeds, the first
output byte is exactly the fixed FrequencyMarker for that rate (0x5f for
5000 Hz, 0x59 for 6000 Hz, 0x53 for 8000 Hz), written unconditionally
before any packed data. -/
theorem C7_first_byte_is_marker (stT : Int → Int) (step : Int → Int → Int)
    (samples : List Int) (r : Int) (h : r = 5000 ∨ r = 6000 ∨ r = 8000) :
    encode_run stT step r samples
      = Except.ok (output_upd_file stT step (get_frequency r) samples) ∧
    (output_upd_file stT step (get_frequency r) samples)[0]? = some (get_frequency r) ∧
    (r = 5000 → get_frequency r = 0x5f) ∧
    (r = 6000 → get_frequency r = 0x59) ∧
    (r = 8000 → get_frequency r = 0x53) := by
  refine ⟨?_, output_upd_head stT step (get_frequency r) samples, ?_, ?_, ?_⟩
  · unfold encode_run
    rw [if_neg (by tauto)]
  · rintro rfl
    decide
  · rintro rfl
    decide
  · rintro rfl
    decide

/-- Claim C7, witness at 5000 Hz with an empty sample sequence. -/
theorem C7_first_byte_is_marker_witness :
    ((5000 : Int) = 5000 ∨ (5000 : Int) = 6000 ∨ (5000 : Int) = 8000) ∧
    encode_run zeroTable zeroStep 5000 []
      = Except.ok (output_upd_file zeroTable zeroStep (get_frequency 5000) []) ∧
    (output_upd_file zeroTable zeroStep (get_frequency 5000) [])[0]?
      = some (get_frequency 5000) ∧
    get_frequency 5000 = 0x5f :=
  ⟨Or.inl rfl,
   (C7_first_byte_is_marker zeroTable zeroStep [] 5000 (Or.inl rfl)).1,
   (C7_first_byte_is_marker zeroTable zeroStep [] 5000 (Or.inl rfl)).2.1,
   (C7_first_byte_is_marker zeroTable zeroStep [] 5000 (Or.inl rfl)).2.2.1 rfl⟩

/-- Claim C8: when the second nibble of a pair is produced (counter odd,
pending register holding a 4-bit nibble), the byte written -- the one at
position `ps.out.length` of the stream -- equals
`(pending_nibble << 4) | new_nibble`: its high 4 bits are the pending
nibble and its low 4 bits are the new nibble. -/
theorem C8_packed_byte_layout (stT : Int → Int) (step : Int → Int → Int)
    (freq : Nat) (ps : PackState) (x : Int)
    (h1 : ps.onesixty % 2 = 1) (h2 : ps.output_sample < 16) :
    (encode_step stT step freq ps x).out[ps.out.length]?
      = some (ps.output_sample <<< 4 ||| (encode_sample stT step ps.state x).2) ∧
    (ps.output_sample <<< 4 ||| (encode_sample stT step ps.state x).2) / 16
      = ps.output_sample ∧
    (ps.output_sample <<< 4 ||| (encode_sample stT step ps.state x).2) % 16
      = (encode_sample stT step ps.state x).2 := by
  obtain ⟨st, cnt, os, out⟩ := ps
  simp only at h1 h2 ⊢
  have hnib := nib_lt stT step st x
  have hval := lor4_eq os (encode_sample stT step st x).2 h2 hnib
  have hm : (os <<< 4 ||| (encode_sample stT step st x).2) % 256
      = os <<< 4 ||| (encode_sample stT step st x).2 := by
    rw [hval]
    exact Nat.mod_eq_of_lt (by omega)
  refine ⟨?_, by rw [hval]; omega, by rw [hval]; omega⟩
  simp only [encode_step, if_pos h1]
  split
  · rw [List.getElem?_append_left
        (by simp only [List.length_append, List.length_cons, List.length_nil]; omega),
      List.getElem?_concat_length, hm]
  · rw [List.getElem?_concat_length, hm]

/-- Claim C8, witness: pending nibble 5, counter odd, sample 0. -/
theorem C8_packed_byte_layout_witness :
    ((1 : Nat) % 2 = 1 ∧ (5 : Nat) < 16) ∧
    (encode_step zeroTable zeroStep 95 ⟨0, 1, 5, [95, 7]⟩ 0).out[([95, 7] : List Nat).length]?
      = some (5 <<< 4 ||| (encode_sample zeroTable zeroStep 0 0).2) ∧
    (5 <<< 4 ||| (encode_sample zeroTable zeroStep 0 0).2) / 16 = 5 ∧
    (5 <<< 4 ||| (encode_sample zeroTable zeroStep 0 0).2) % 16
      = (encode_sample zeroTable zeroStep 0 0).2 :=
  ⟨⟨by norm_num, by norm_num⟩,
   (C8_packed_byte_layout zeroTable zeroStep 95 ⟨0, 1, 5, [95, 7]⟩ 0
     (by norm_num) (by norm_num)).1,
   (C8_packed_byte_layout zeroTable zeroStep 95 ⟨0, 1, 5, [95, 7]⟩ 0
     (by norm_num) (by norm_num)).2.1,
   (C8_packed_byte_layout zeroTable zeroStep 95 ⟨0, 1, 5, [95, 7]⟩ 0
     (by norm_num) (by norm_num)).2.2⟩

/-- Claim C9: when the number of input samples is odd, exactly one extra
final byte is appended after the loop; it equals the pending (unpaired)
nibble shifted into the high 4 bits, its low 4 bits are exactly 0, and the
pending nibble is the nibble encoded for the last sample. -/
theorem C9_odd_trailing_byte (stT : Int → Int) (step : Int → Int → Int)
    (freq : Nat) (xs : List Int) (h : xs.length % 2 = 1) :
    output_upd_file stT step freq xs
      = (xs.foldl (encode_step stT step freq) (upd_init freq)).out
        ++ [16 * (xs.foldl (encode_step stT step freq) (upd_init freq)).output_sample] ∧
    (xs.foldl (encode_step stT step freq) (upd_init freq)).output_sample < 16 ∧
    (16 * (xs.foldl (encode_step stT step freq) (upd_init freq)).output_sample) % 16 = 0 ∧
    (16 * (xs.foldl (encode_step stT step freq) (upd_init freq)).output_sample) / 16
      = (xs.foldl (encode_step stT step freq) (upd_init freq)).output_sample ∧
    ∀ ys y, xs = ys ++ [y] →
      (xs.foldl (encode_step stT step freq) (upd_init freq)).output_sample
        = (encode_sample stT step
            ((ys.foldl (encode_step stT step freq) (upd_init freq)).state) y).2 := by
  obtain ⟨i1, i2, i3, i4, i5⟩ := upd_loop_inv stT step freq xs
  have hos := i3 h
  have hcond : (xs.foldl (encode_step stT step freq) (upd_init freq)).onesixty % 2 = 1 := by
    omega
  refine ⟨?_, hos, by omega, by omega, ?_⟩
  · simp only [output_upd_file]
    rw [if_pos hcond, shiftLeft4_mod _ hos]
  · intro ys y hy
    subst hy
    rw [List.length_append, List.length_cons, List.length_nil] at h
    obtain ⟨j1, j2, j3, j4, j5⟩ := upd_loop_inv stT step freq ys
    have hcond2 : ¬((ys.foldl (encode_step stT step freq) (upd_init freq)).onesixty % 2 = 1) := by
      omega
    rw [List.foldl_append, List.foldl_cons, List.foldl_nil]
    simp only [encode_step, if_neg hcond2]
    split <;> rfl

/-- Claim C9, witness for a single-sample input. -/
theorem C9_odd_trailing_byte_witness :
    (([5] : List Int).length % 2 = 1) ∧
    output_upd_file zeroTable zeroStep 95 [5]
      = (([5] : List Int).foldl (encode_step zeroTable zeroStep 95) (upd_init 95)).out
        ++ [16 * (([5] : List Int).foldl (encode_step zeroTable zeroStep 95) (upd_init 95)).output_sample] ∧
    (([5] : List Int).foldl (encode_step zeroTable zeroStep 95) (upd_init 95)).output_sample < 16 :=
  ⟨by norm_num,
   (C9_odd_trailing_byte zeroTable zeroStep 95 [5] (by norm_num)).1,
   (C9_odd_trailing_byte zeroTable zeroStep 95 [5] (by norm_num)).2.1⟩

/-- Claim C10: for every input whose sample count is a positive multiple of
256 the final byte of the output stream is the FrequencyMarker byte: the
recurring marker is emitted immediately after the last packed byte even
though no packed data follows it. -/
theorem C10_block_multiple_ends_with_marker (stT : Int → Int) (step : Int → Int → Int)
    (freq : Nat) (xs : List Int) (h1 : xs.length % 256 = 0) (h2 : 0 < xs.length) :
    (output_upd_file stT step freq xs).getLast? = some freq :=
  output_upd_last stT step freq xs h1 h2

/-- Claim C10, witness for 256 zero samples. -/
theorem C10_block_multiple_ends_with_marker_witness :
    ((List.replicate 256 (0 : Int)).length % 256 = 0 ∧
      0 < (List.replicate 256 (0 : Int)).length) ∧
    (output_upd_file zeroTable zeroStep 83 (List.replicate 256 0)).getLast? = some 83 :=
  ⟨⟨by simp only [List.length_replicate], by simp only [List.length_replicate]; decide⟩,
   C10_block_multiple_ends_with_marker zeroTable zeroStep 83 (List.replicate 256 0)
     (by simp only [List.length_replicate])
     (by simp only [List.length_replicate]; decide)⟩

end Upd7759
